import Mathlib

/-!
Verification of the Nepali Unicode transliteration engine
(`src/lib/nepali-converter.ts` and `src/lib/nepali-mapping.ts`).

Strings are modelled as `List Char`; the symbol tables keep their source
order as association lists of `String × String` pairs.  JavaScript object
lookup `obj[key]` is modelled as exact association-list lookup, and the
object-spread merge in `NepaliMapping.getMapping` is modelled by trying the
later-spread tables first (spread gives the last table priority on duplicate
keys).  `String.prototype.toLowerCase` is modelled on the ASCII range, which
covers the whole input alphabet of the tables.
-/

/-- ASCII uppercase letter test, as a predicate on the code point. -/
def upperN (n : Nat) : Bool := decide (65 ≤ n ∧ n ≤ 90)

/-- ASCII letter test (matches the JavaScript regex `[a-zA-Z]`). -/
def letterN (n : Nat) : Bool := decide ((65 ≤ n ∧ n ≤ 90) ∨ (97 ≤ n ∧ n ≤ 122))

/-- JavaScript word-character test (`\w` is `[A-Za-z0-9_]`). -/
def wordN (n : Nat) : Bool :=
  decide ((65 ≤ n ∧ n ≤ 90) ∨ (97 ≤ n ∧ n ≤ 122) ∨ (48 ≤ n ∧ n ≤ 57) ∨ n = 95)

/-- JavaScript whitespace (`\s`, also the set stripped by `String.trim`):
tab, line feed, vertical tab, form feed, carriage return, space, NBSP,
Ogham space, the U+2000 to U+200A range, line/paragraph separators, narrow
NBSP, medium mathematical space, ideographic space, and the BOM. -/
def whiteN (n : Nat) : Bool :=
  decide ((9 ≤ n ∧ n ≤ 13) ∨ n = 32 ∨ n = 160 ∨ n = 5760 ∨
    (8192 ≤ n ∧ n ≤ 8202) ∨ n = 8232 ∨ n = 8233 ∨ n = 8239 ∨ n = 8287 ∨
    n = 12288 ∨ n = 65279)

/-- A character kept by the non-alphabetic-content projection used for the
punctuation/spacing-preservation property: an ASCII character that is not a
letter (spaces, digits, punctuation, control characters). -/
def keptN (n : Nat) : Bool := decide (n ≤ 127) && ! letterN n

def isAsciiUpper (c : Char) : Bool := upperN c.toNat

def isAsciiLetter (c : Char) : Bool := letterN c.toNat

def isWordChar (c : Char) : Bool := wordN c.toNat

def jsWhite (c : Char) : Bool := whiteN c.toNat

def isKept (c : Char) : Bool := keptN c.toNat

/-- ASCII lowering: the fragment of `String.prototype.toLowerCase` that the
two characters agree on for every ASCII code point.  The program's
`toLowerCase` additionally lowercases non-ASCII cased letters (`'É'` to
`'é'`, `'Д'` to `'д'`, …), which this model does not reproduce; theorems
whose conclusions depend on how cased characters are normalised therefore
restrict their inputs to ASCII, where model and program coincide. -/
def lowerChar (c : Char) : Char :=
  if isAsciiUpper c then Char.ofNat (c.toNat + 32) else c

def lowerList (l : List Char) : List Char := l.map lowerChar

/-- `String.prototype.trim`: strip leading and trailing whitespace. -/
def trimList (l : List Char) : List Char :=
  ((l.dropWhile jsWhite).reverse.dropWhile jsWhite).reverse

/-- `word.trim().toLowerCase()`, the normalisation done by `convertWord`. -/
def normWord (w : List Char) : List Char := lowerList (trimList w)

/-- `NepaliMapping.vowels` in source order. -/
def vowelsPairs : List (String × String) :=
  [("a", "अ"), ("aa", "आ"), ("i", "इ"), ("ee", "ई"), ("ii", "ई"),
   ("u", "उ"), ("uu", "ऊ"), ("e", "ए"), ("ai", "ऐ"), ("o", "ओ"), ("au", "औ"),
   ("A", "आ"), ("I", "ई"), ("E", "ए"), ("O", "ओ"), ("U", "ऊ")]

/-- `NepaliMapping.baseConsonants` in source order. -/
def baseConsonantsPairs : List (String × String) :=
  [("k", "क"), ("kh", "ख"), ("g", "ग"), ("gh", "घ"), ("ng", "ङ"),
   ("ch", "च"), ("chh", "छ"), ("j", "ज"), ("jh", "झ"), ("yn", "ञ"),
   ("t", "त"), ("th", "थ"), ("d", "द"), ("dh", "ध"), ("n", "न"),
   ("T", "ट"), ("Th", "ठ"), ("D", "ड"), ("Dh", "ढ"), ("N", "ण"),
   ("p", "प"), ("ph", "फ"), ("b", "ब"), ("bh", "भ"), ("m", "म"),
   ("y", "य"), ("r", "र"), ("l", "ल"), ("w", "व"), ("v", "व"),
   ("sh", "श"), ("Sh", "ष"), ("s", "स"), ("h", "ह")]

/-- `NepaliMapping.halfConsonants` in source order. -/
def halfConsonantsPairs : List (String × String) :=
  [("k", "क्"), ("kh", "ख्"), ("g", "ग्"), ("gh", "घ्"), ("ng", "ङ्"),
   ("ch", "च्"), ("chh", "छ्"), ("j", "ज्"), ("jh", "झ्"), ("yn", "ञ्"),
   ("t", "त्"), ("th", "थ्"), ("d", "द्"), ("dh", "ध्"), ("n", "न्"),
   ("T", "ट्"), ("Th", "ठ्"), ("D", "ड्"), ("Dh", "ढ्"), ("N", "ण्"),
   ("p", "प्"), ("ph", "फ्"), ("b", "ब्"), ("bh", "भ्"), ("m", "म्"),
   ("y", "य्"), ("r", "र्"), ("l", "ल्"), ("w", "व्"), ("v", "व्"),
   ("sh", "श्"), ("Sh", "ष्"), ("s", "स्"), ("h", "ह्")]

/-- `NepaliMapping.matras` in source order. -/
def matrasPairs : List (String × String) :=
  [("aa", "ा"), ("i", "ि"), ("ee", "ी"), ("ii", "ी"),
   ("u", "ु"), ("uu", "ू"), ("e", "े"), ("ai", "ै"),
   ("o", "ो"), ("au", "ौ")]

/-- `NepaliMapping.consonantClusters` in source order. -/
def consonantClustersPairs : List (String × String) :=
  [("ksh", "क्ष"), ("ksha", "क्ष"), ("kshi", "क्षि"), ("kshu", "क्षु"), ("kshe", "क्षे"), ("ksho", "क्षो"),
   ("tr", "त्र"), ("tra", "त्र"), ("tri", "त्रि"), ("tru", "त्रु"), ("tre", "त्रे"), ("tro", "त्रो"),
   ("jny", "ज्ञ"), ("jnya", "ज्ञ"), ("jnyi", "ज्ञि"), ("jnyu", "ज्ञु"), ("jnye", "ज्ञे"), ("jnyo", "ज्ञो"),
   ("kt", "क्त"), ("kta", "क्त"), ("kti", "क्ति"), ("ktu", "क्तु"), ("kte", "क्ते"), ("kto", "क्तो"),
   ("st", "स्त"), ("sta", "स्त"), ("sti", "स्ति"), ("stu", "स्तु"), ("ste", "स्ते"), ("sto", "स्तो"),
   ("str", "स्त्र"), ("stra", "स्त्र"), ("stri", "स्त्रि"), ("stru", "स्त्रु"), ("stre", "स्त्रे"), ("stro", "स्त्रो"),
   ("nt", "न्त"), ("nta", "न्त"), ("nti", "न्ति"), ("ntu", "न्तु"), ("nte", "न्ते"), ("nto", "न्तो"),
   ("nd", "न्द"), ("nda", "न्द"), ("ndi", "न्दि"), ("ndu", "न्दु"), ("nde", "न्दे"), ("ndo", "न्दो"),
   ("mp", "म्प"), ("mpa", "म्प"), ("mpi", "म्पि"), ("mpu", "म्पु"), ("mpe", "म्पे"), ("mpo", "म्पो"),
   ("mb", "म्ब"), ("mba", "म्ब"), ("mbi", "म्बि"), ("mbu", "म्बु"), ("mbe", "म्बे"), ("mbo", "म्बो"),
   ("ng", "ङ्ग"), ("nga", "ङ्ग"), ("ngi", "ङ्गि"), ("ngu", "ङ्गु"), ("nge", "ङ्गे"), ("ngo", "ङ्गो"),
   ("chh", "छ"), ("chha", "छ"), ("chhi", "छि"), ("chhu", "छु"), ("chhe", "छे"), ("chho", "छो"),
   ("shch", "श्च"), ("shcha", "श्च"), ("shchi", "श्चि"), ("shchu", "श्चु"), ("shche", "श्चे"), ("shcho", "श्चो"),
   ("shth", "स्थ"), ("shtha", "स्थ"), ("shthi", "स्थि"), ("shthu", "स्थु"), ("shthe", "स्थे"), ("shtho", "स्थो"),
   ("shm", "श्म"), ("shma", "श्म"), ("shmi", "श्मि"), ("shmu", "श्मु"), ("shme", "श्मे"), ("shmo", "श्मो"),
   ("shn", "श्न"), ("shna", "श्न"), ("shni", "श्नि"), ("shnu", "श्नु"), ("shne", "श्ने"), ("shno", "श्नो"),
   ("shl", "श्ल"), ("shla", "श्ल"), ("shli", "श्लि"), ("shlu", "श्लु"), ("shle", "श्ले"), ("shlo", "श्लो"),
   ("shv", "श्व"), ("shva", "श्व"), ("shvi", "श्वि"), ("shvu", "श्वु"), ("shve", "श्वे"), ("shvo", "श्वो"),
   ("rth", "र्थ"), ("rtha", "र्थ"), ("rthi", "र्थि"), ("rthu", "र्थु"), ("rthe", "र्थे"), ("rtho", "र्थो"),
   ("rdh", "र्ध"), ("rdha", "र्ध"), ("rdhi", "र्धि"), ("rdhu", "र्धु"), ("rdhe", "र्धे"), ("rdho", "र्धो"),
   ("rsh", "र्श"), ("rsha", "र्श"), ("rshi", "र्शि"), ("rshu", "र्शु"), ("rshe", "र्शे"), ("rsho", "र्शो"),
   ("rch", "र्च"), ("rcha", "र्च"), ("rchi", "र्चि"), ("rchu", "र्चु"), ("rche", "र्चे"), ("rcho", "र्चो"),
   ("rgh", "र्घ"), ("rgha", "र्घ"), ("rghi", "र्घि"), ("rghu", "र्घु"), ("rghe", "र्घे"), ("rgho", "र्घो"),
   ("rkh", "र्ख"), ("rkha", "र्ख"), ("rkhi", "र्खि"), ("rkhu", "र्खु"), ("rkhe", "र्खे"), ("rkho", "र्खो"),
   ("rph", "र्फ"), ("rpha", "र्फ"), ("rphi", "र्फि"), ("rphu", "र्फु"), ("rphe", "र्फे"), ("rpho", "र्फो"),
   ("rbh", "र्भ"), ("rbha", "र्भ"), ("rbhi", "र्भि"), ("rbhu", "र्भु"), ("rbhe", "र्भे"), ("rbho", "र्भो"),
   ("rd", "र्द"), ("rda", "र्द"), ("rdi", "र्दि"), ("rdu", "र्दु"), ("rde", "र्दे"), ("rdo", "र्दो"),
   ("rt", "र्त"), ("rta", "र्त"), ("rti", "र्ति"), ("rtu", "र्तु"), ("rte", "र्ते"), ("rto", "र्तो"),
   ("rn", "र्न"), ("rna", "र्न"), ("rni", "र्नि"), ("rnu", "र्नु"), ("rne", "र्ने"), ("rno", "र्नो"),
   ("rm", "र्म"), ("rma", "र्म"), ("rmi", "र्मि"), ("rmu", "र्मु"), ("rme", "र्मे"), ("rmo", "र्मो"),
   ("rl", "र्ल"), ("rla", "र्ल"), ("rli", "र्लि"), ("rlu", "र्लु"), ("rle", "र्ले"), ("rlo", "र्लो"),
   ("rv", "र्व"), ("rva", "र्व"), ("rvi", "र्वि"), ("rvu", "र्वु"), ("rve", "र्वे"), ("rvo", "र्वो"),
   ("ry", "र्य"), ("rya", "र्य"), ("ryi", "र्यि"), ("ryu", "र्यु"), ("rye", "र्ये"), ("ryo", "र्यो"),
   ("ly", "ल्य"), ("lya", "ल्य"), ("lyi", "ल्यि"), ("lyu", "ल्यु"), ("lye", "ल्ये"), ("lyo", "ल्यो"),
   ("ny", "न्य"), ("nya", "न्य"), ("nyi", "न्यि"), ("nyu", "न्यु"), ("nye", "न्ये"), ("nyo", "न्यो"),
   ("my", "म्य"), ("mya", "म्य"), ("myi", "म्यि"), ("myu", "म्यु"), ("mye", "म्ये"), ("myo", "म्यो"),
   ("ty", "त्य"), ("tya", "त्य"), ("tyi", "त्यि"), ("tyu", "त्यु"), ("tye", "त्ये"), ("tyo", "त्यो"),
   ("dy", "द्य"), ("dya", "द्य"), ("dyi", "द्यि"), ("dyu", "द्यु"), ("dye", "द्ये"), ("dyo", "द्यो"),
   ("py", "प्य"), ("pya", "प्य"), ("pyi", "प्यि"), ("pyu", "प्यु"), ("pye", "प्ये"), ("pyo", "प्यो"),
   ("by", "ब्य"), ("bya", "ब्य"), ("byi", "ब्यि"), ("byu", "ब्यु"), ("bye", "ब्ये"), ("byo", "ब्यो"),
   ("ky", "क्य"), ("kya", "क्य"), ("kyi", "क्यि"), ("kyu", "क्यु"), ("kye", "क्ये"), ("kyo", "क्यो"),
   ("gy", "ग्य"), ("gya", "ग्य"), ("gyi", "ग्यि"), ("gyu", "ग्यु"), ("gye", "ग्ये"), ("gyo", "ग्यो"),
   ("hy", "ह्य"), ("hya", "ह्य"), ("hyi", "ह्यि"), ("hyu", "ह्यु"), ("hye", "ह्ये"), ("hyo", "ह्यो"),
   ("sy", "स्य"), ("sya", "स्य"), ("syi", "स्यि"), ("syu", "स्यु"), ("sye", "स्ये"), ("syo", "स्यो"),
   ("shy", "श्य"), ("shya", "श्य"), ("shyi", "श्यि"), ("shyu", "श्यु"), ("shye", "श्ये"), ("shyo", "श्यो")]

/-- `NepaliMapping.commonWords` in source order. -/
def commonWordsPairs : List (String × String) :=
  [("mero", "मेरो"), ("naam", "नाम"), ("ram", "राम"), ("ho", "हो"),
   ("cha", "छ"), ("huncha", "हुन्छ"), ("hunchha", "हुन्छ"), ("ma", "म"),
   ("timro", "तिम्रो"), ("hamro", "हाम्रो"), ("tapainko", "तपाईंको"),
   ("kasto", "कस्तो"), ("kati", "कति"), ("kaha", "कहाँ"), ("kina", "किन"),
   ("kinaa", "किना"), ("kasari", "कसरी"), ("ke", "के"), ("ko", "को"),
   ("ka", "का"), ("ki", "की"), ("ra", "र"), ("ani", "अनी"), ("tara", "तर"),
   ("tyo", "त्यो"), ("yo", "यो"), ("uniharu", "उनिहरू"),
   ("tiniharu", "तिनिहरू"), ("yini", "यिनी"), ("hami", "हामी"),
   ("hajur", "हजुर"), ("namaste", "नमस्ते"), ("dhanyabad", "धन्यवाद"),
   ("sukriya", "सुक्रिया"), ("bholi", "भोलि"), ("aaja", "आज"),
   ("hijo", "हिजो"), ("parsi", "पर्सि"), ("bhaneko", "भनेको"),
   ("bhancha", "भन्छ"), ("garcha", "गर्छ"), ("garchha", "गर्छ"),
   ("hudaina", "हुँदैन"), ("hudain", "हुँदैन"), ("thiyo", "थियो"),
   ("thiyen", "थिएन"), ("hunchu", "हुँछु"), ("hunchau", "हुँछौ"),
   ("hunchan", "हुँछन्"), ("garchu", "गर्छु"), ("garchau", "गर्छौ"),
   ("garchan", "गर्छन्"), ("bhanchu", "भन्छु"), ("bhanchau", "भन्छौ"),
   ("bhanchan", "भन्छन्")]

/-- Exact association-list lookup, modelling JavaScript `obj[key]` on the
symbol-table objects (all values are non-empty strings, so truthiness of a
lookup coincides with presence of the key). -/
def tblLookup (k : List Char) : List (String × String) → Option (List Char)
  | [] => none
  | (k0, v0) :: t => if k = k0.data then some v0.data else tblLookup k t

/-- First-defined of two optional lookups, modelling `a || b` on non-empty
string values. -/
def oor (a b : Option (List Char)) : Option (List Char) :=
  match a with
  | some v => some v
  | none => b

/-- `NepaliMapping.getMapping()`: the object-spread union of vowels, base
consonants, consonant clusters and common words.  With object spread a later
table wins on duplicate keys, so lookup tries the tables in reverse spread
order. -/
def mappingLookup (k : List Char) : Option (List Char) :=
  oor (tblLookup k commonWordsPairs)
    (oor (tblLookup k consonantClustersPairs)
      (oor (tblLookup k baseConsonantsPairs) (tblLookup k vowelsPairs)))

/-- `this.consonantClusters[s] || this.mapping[s]`, the combined lookup used
by the length-4, length-3 and (in two steps) length-2 ladder rungs of
`convertAdvanced`. -/
def lookup2 (k : List Char) : Option (List Char) :=
  oor (tblLookup k consonantClustersPairs) (mappingLookup k)

/-- `NepaliConverter.isConsonantChar`: a one-character key of the base
consonant table, or a letter of the class `[kghcjtdnpbmyrlwvsh]` case
insensitively. -/
def isConsonantChar (c : Char) : Bool :=
  (tblLookup [c] baseConsonantsPairs).isSome ||
    (lowerChar c ∈ ['k', 'g', 'h', 'c', 'j', 't', 'd', 'n', 'p', 'b', 'm',
      'y', 'r', 'l', 'w', 'v', 's'] : Bool)

/-- `NepaliConverter.isVowelChar`: a one-character key of the vowel table, or
a letter of the class `[aeiou]` case insensitively. -/
def isVowelChar (c : Char) : Bool :=
  (tblLookup [c] vowelsPairs).isSome ||
    (lowerChar c ∈ ['a', 'e', 'i', 'o', 'u'] : Bool)

/-- The consonant-consonant half-letter rung of the length-2 ladder step:
both characters must be one-character base-consonant keys, and then the
first is emitted as a half consonant and the second as a base consonant
(`firstHalf && secondBase` both available). -/
def ccPair (c : Char) (rest : List Char) : Option (List Char) :=
  match rest with
  | [] => none
  | r0 :: _ =>
    if (tblLookup [c] baseConsonantsPairs).isSome &&
        (tblLookup [r0] baseConsonantsPairs).isSome then
      match tblLookup [c] halfConsonantsPairs, tblLookup [r0] baseConsonantsPairs with
      | some fh, some sb => some (fh ++ sb)
      | _, _ => none
    else none

/-- The matra lookup of the `nextTwoChar` lookahead: `nextTwoChar` is the
two characters after the current one when at least two exist (JS condition
`i + 2 < text.length`), and `null` otherwise; the value is then looked up in
the matra table. -/
def nextTwoMatra (rest : List Char) : Option (List Char) :=
  match (if 2 ≤ rest.length then some (rest.take 2) else none) with
  | some t2 => tblLookup t2 matrasPairs
  | none => none

/-- The single-character fallback of `convertAdvanced`: standalone vowel,
consonant with lookahead (matra attachment or half-letter form), or unknown
character copied through.  Returns the emitted output and the total number
of characters consumed (at least 1). -/
def singleStep (c : Char) (rest : List Char) : List Char × Nat :=
  match tblLookup [c] vowelsPairs with
  | some v => (v, 1)
  | none =>
    match tblLookup [c] baseConsonantsPairs with
    | none => ([c], 1)
    | some bc =>
      match rest.head? with
      | none => (bc, 1)
      | some nc =>
        if isConsonantChar nc && ! isVowelChar nc then
          match nextTwoMatra rest with
          | some m => (bc ++ m, 3)
          | none =>
            match tblLookup [nc] matrasPairs with
            | some m => (bc ++ m, 2)
            | none =>
              match tblLookup [c] halfConsonantsPairs with
              | some h => (h, 1)
              | none => (bc, 1)
        else
          match tblLookup [nc] matrasPairs with
          | some m => (bc ++ m, 2)
          | none =>
            match nextTwoMatra rest with
            | some m => (bc ++ m, 3)
            | none => (bc, 1)

/-- One iteration of the `convertAdvanced` while loop at position `i`, where
`c :: rest` is the suffix of the word starting at `i`.  Tries the ladder of
match lengths 4, 3, 2 (cluster, then general mapping, then the
consonant-consonant half-letter rule), then the single-character fallback.
Returns the emitted output and the total number of characters consumed. -/
def convertStep (c : Char) (rest : List Char) : List Char × Nat :=
  match (if 4 ≤ (c :: rest).length then lookup2 ((c :: rest).take 4) else none) with
  | some v => (v, 4)
  | none =>
    match (if 3 ≤ (c :: rest).length then lookup2 ((c :: rest).take 3) else none) with
    | some v => (v, 3)
    | none =>
      match (if 2 ≤ (c :: rest).length then
          tblLookup ((c :: rest).take 2) consonantClustersPairs else none) with
      | some v => (v, 2)
      | none =>
        match (if 2 ≤ (c :: rest).length then mappingLookup ((c :: rest).take 2) else none) with
        | some v => (v, 2)
        | none =>
          match (if 2 ≤ (c :: rest).length then ccPair c rest else none) with
          | some v => (v, 2)
          | none => singleStep c rest

/-- The `convertAdvanced` loop, driven by a fuel argument that bounds the
number of iterations; every iteration consumes at least one character, so a
fuel equal to the word length is always sufficient. -/
def convAux : Nat → List Char → List Char
  | 0, _ => []
  | _ + 1, [] => []
  | f + 1, c :: rest =>
    (convertStep c rest).1 ++ convAux f (rest.drop ((convertStep c rest).2 - 1))

/-- `NepaliConverter.convertAdvanced`. -/
def convertAdvanced (s : List Char) : List Char := convAux s.length s

/-- `NepaliConverterConfig`. -/
structure NepaliConverterConfig where
  autoConvertOnSpace : Bool
  caseSensitive : Bool
  preservePunctuation : Bool
  enableCommonWords : Bool

/-- The defaults installed by `NepaliConverterBuilder`. -/
def defaultConfig : NepaliConverterConfig :=
  { autoConvertOnSpace := true, caseSensitive := false,
    preservePunctuation := true, enableCommonWords := true }

/-- `NepaliConverter.convertWord`: empty or whitespace-only input is
returned unchanged; otherwise the word is trimmed and lowercased, looked up
in the common-words table when that is enabled, and otherwise run through
`convertAdvanced`. -/
def convertWord (cfg : NepaliConverterConfig) (w : List Char) : List Char :=
  if w = [] then w
  else if trimList w = [] then w
  else
    match (if cfg.enableCommonWords then tblLookup (normWord w) commonWordsPairs else none) with
    | some v => v
    | none => convertAdvanced (normWord w)

/-- The splitting alphabet of `splitText`: a space or one of the punctuation
characters of the class `[.,!?;:()\[\]\x7b\x7d'"]`. -/
def isSplitChar (c : Char) : Bool :=
  c == ' ' ||
    (c ∈ ['.', ',', '!', '?', ';', ':', '(', ')', '[', ']',
      '\x7b', '\x7d', '\x27', '\x22'] : Bool)

/-- The accumulator loop of `NepaliConverter.splitText`: `cur` is the word
built up so far; a split character flushes `cur` (when non-empty) and is
emitted as its own token. -/
def splitGo : List Char → List Char → List (List Char)
  | [], cur => if cur = [] then [] else [cur]
  | c :: cs, cur =>
    if isSplitChar c then
      (if cur = [] then [[c]] else [cur, [c]]) ++ splitGo cs []
    else
      splitGo cs (cur ++ [c])

/-- `NepaliConverter.splitText`. -/
def splitText (t : List Char) : List (List Char) := splitGo t []

/-- The `/[a-zA-Z]/` word test applied to each token by `convertText`. -/
def hasLetter (w : List Char) : Bool := w.any isAsciiLetter

/-- `NepaliConverter.convertText`: empty or whitespace-only text is returned
unchanged; otherwise the text is split into tokens, tokens containing an
ASCII letter are converted by `convertWord`, the rest pass through, and the
results are joined with no separator. -/
def convertText (cfg : NepaliConverterConfig) (t : List Char) : List Char :=
  if t = [] then t
  else if trimList t = [] then t
  else
    List.flatten ((splitText t).map (fun w => if hasLetter w then convertWord cfg w else w))

/-- Group 1 of the regex `(\w+)\s*$` applied to the text before the cursor:
strip trailing whitespace, then take the maximal trailing run of word
characters; the match succeeds exactly when that run is non-empty. -/
def lastWordRun (s : List Char) : Option (List Char) :=
  let run := ((s.reverse.dropWhile jsWhite).takeWhile isWordChar).reverse
  if run = [] then none else some run

/-- `String.prototype.lastIndexOf`: the largest index at which `pat` occurs
in `s`, if any. -/
def lastIndexOf (s pat : List Char) : Option Nat :=
  ((List.range (s.length + 1)).filter
    (fun j => decide ((s.drop j).take pat.length = pat))).getLast?

/-- `NepaliConverter.handleSpaceKey`: with auto-convert disabled the text
and cursor are returned as given.  Otherwise the last word-character run of
the text before the cursor (allowing trailing whitespace) is located with
`lastIndexOf`, converted with `convertWord`, and the text is rebuilt as
prefix + converted word + one space + text after the cursor; if there is no
such run, a space is appended.  (`lastIndexOf` returning no occurrence maps
to JavaScript's `-1`, where `substring(0, -1)` yields the empty prefix.) -/
def handleSpaceKey (cfg : NepaliConverterConfig) (t : List Char) (p : Nat) :
    List Char × Nat :=
  if ! cfg.autoConvertOnSpace then (t, p)
  else
    let before := t.take p
    let after := t.drop p
    match lastWordRun before with
    | some run =>
      let wordStart := (lastIndexOf before run).getD 0
      let beforeWord := before.take wordStart
      let conv := convertWord cfg run
      (beforeWord ++ conv ++ ' ' :: after, beforeWord.length + conv.length + 1)
    | none => (t ++ [' '], p + 1)

/-- Well-formedness of one symbol-table entry: non-empty key made of ASCII
letters, value made of non-ASCII (Devanagari) code points. -/
def keyValOk (p : String × String) : Bool :=
  (! p.1.data.isEmpty) && p.1.data.all isAsciiLetter &&
    p.2.data.all (fun c => decide (127 < c.toNat))

/-- The characters appearing in the keys of the vowel and base-consonant
tables: the "consonant and vowel alphabets" of the symbol tables. -/
def vcKeyChars : List Char :=
  List.flatten ((vowelsPairs ++ baseConsonantsPairs).map (fun p => p.1.data))

/-- All six symbol tables in one list, for table-wide finite checks. -/
def allTablePairs : List (String × String) :=
  vowelsPairs ++ baseConsonantsPairs ++ halfConsonantsPairs ++ matrasPairs ++
    consonantClustersPairs ++ commonWordsPairs

set_option maxRecDepth 10000

/-! ### Character-level lemmas -/

theorem lowerChar_toNat (c : Char) (h : isAsciiUpper c = true) :
    (lowerChar c).toNat = c.toNat + 32 := by
  have hn : 65 ≤ c.toNat ∧ c.toNat ≤ 90 := of_decide_eq_true h
  have hv : (c.toNat + 32).isValidChar := by
    constructor
    omega
  simp only [lowerChar, h, if_true]
  unfold Char.ofNat
  rw [dif_pos hv]
  rfl

theorem lowerChar_eq_self (c : Char) (h : isAsciiUpper c = false) :
    lowerChar c = c := by
  simp [lowerChar, h]

theorem toNat_le_of_isAsciiLetter (c : Char) (h : isAsciiLetter c = true) :
    c.toNat ≤ 127 := by
  have := of_decide_eq_true (show letterN c.toNat = true from h)
  omega

theorem isKept_eq_false_of_letter (c : Char) (h : isAsciiLetter c = true) :
    isKept c = false := by
  simp only [isKept, keptN, isAsciiLetter] at *
  simp [h]

theorem isKept_eq_false_of_big (c : Char) (h : 127 < c.toNat) :
    isKept c = false := by
  simp only [isKept, keptN]
  have : decide (c.toNat ≤ 127) = false := by simp; omega
  simp [this]

theorem jsWhite_lowerChar (c : Char) : jsWhite (lowerChar c) = jsWhite c := by
  by_cases h : isAsciiUpper c
  · have hn : 65 ≤ c.toNat ∧ c.toNat ≤ 90 := of_decide_eq_true h
    simp only [jsWhite, lowerChar_toNat c h, whiteN]
    rw [decide_eq_decide]
    omega
  · rw [lowerChar_eq_self c (by simpa using h)]

theorem lowerChar_idem (c : Char) : lowerChar (lowerChar c) = lowerChar c := by
  by_cases h : isAsciiUpper c
  · have hn : 65 ≤ c.toNat ∧ c.toNat ≤ 90 := of_decide_eq_true h
    apply lowerChar_eq_self
    simp only [isAsciiUpper, upperN, lowerChar_toNat c h]
    simp only [decide_eq_false_iff_not]
    omega
  · simp [lowerChar_eq_self c (by simpa using h)]

theorem tblLookup_mem (t : List (String × String)) (k v : List Char)
    (h : tblLookup k t = some v) : ∃ p, p ∈ t ∧ p.1.data = k ∧ p.2.data = v := by
  induction t with
  | nil => simp [tblLookup] at h
  | cons p0 t ih =>
    obtain ⟨k0, v0⟩ := p0
    by_cases hk : k = k0.data
    · simp only [tblLookup, if_pos hk, Option.some.injEq] at h
      exact ⟨(k0, v0), List.mem_cons_self _ _, hk.symm, h⟩
    · simp only [tblLookup, if_neg hk] at h
      obtain ⟨p, hp, h1, h2⟩ := ih h
      exact ⟨p, List.mem_cons_of_mem _ hp, h1, h2⟩

theorem tblLookup_eq_none (t : List (String × String)) (k : List Char)
    (h : ∀ p ∈ t, k ≠ p.1.data) : tblLookup k t = none := by
  induction t with
  | nil => rfl
  | cons p0 t ih =>
    obtain ⟨k0, v0⟩ := p0
    simp only [tblLookup, if_neg (h (k0, v0) (List.mem_cons_self _ _))]
    exact ih (fun p hp => h p (List.mem_cons_of_mem _ hp))

theorem tblLookup_of_mem (t : List (String × String))
    (hnd : (t.map (fun p => p.1.data)).Nodup) (k v : String)
    (hm : (k, v) ∈ t) : tblLookup k.data t = some v.data := by
  induction t with
  | nil => simp at hm
  | cons p0 t ih =>
    obtain ⟨k0, v0⟩ := p0
    rcases List.mem_cons.1 hm with he | hm'
    · rw [← he]
      simp [tblLookup]
    · have hk : k.data ≠ k0.data := by
        intro he
        have : k0.data ∈ t.map (fun p => p.1.data) := by
          refine List.mem_map.2 ⟨(k, v), hm', ?_⟩
          exact he
        exact (List.nodup_cons.1 hnd).1 this
      simp only [tblLookup, if_neg hk]
      exact ih (List.nodup_cons.1 hnd).2 hm'

/-! ### Finite facts about the symbol tables, checked by evaluation -/

theorem commonWords_ok : commonWordsPairs.all keyValOk = true := by decide

theorem commonWords_keys_nodup : (commonWordsPairs.map (fun p => p.1.data)).Nodup := by
  decide

theorem table_keys_in_vc :
    allTablePairs.all (fun p => p.1.data.all (fun c => vcKeyChars.contains c)) = true := by
  decide

/-- Every table key of length at most 4 in the common-words table is also
converted to its mapped value by the composition algorithm, because the
common words are spread into the general mapping consulted by the
length-4/3/2 ladder. -/
theorem commonWords_short_composed :
    (commonWordsPairs.filter (fun p => p.1.data.length ≤ 4)).all
      (fun p => convertAdvanced p.1.data = p.2.data) = true := by
  decide

/-- Consequences of `keyValOk` for a successful lookup: the key is a
non-empty all-letter string and the value is entirely non-ASCII, so neither
contributes to the kept (non-alphabetic ASCII) projection. -/
theorem lookup_kv (t : List (String × String)) (ht : t.all keyValOk = true)
    (k v : List Char) (h : tblLookup k t = some v) :
    k ≠ [] ∧ (∀ c ∈ k, isAsciiLetter c = true) ∧
      List.filter isKept k = [] ∧ List.filter isKept v = [] := by
  obtain ⟨p, hp, h1, h2⟩ := tblLookup_mem t k v h
  have hok := List.all_eq_true.1 ht p hp
  simp only [keyValOk, Bool.and_eq_true, Bool.not_eq_true', List.all_eq_true] at hok
  obtain ⟨⟨hne, hletter⟩, hbig⟩ := hok
  subst h1
  subst h2
  refine ⟨?_, hletter, ?_, ?_⟩
  · intro he
    rw [he] at hne
    revert hne
    simp [List.isEmpty]
  · exact List.filter_eq_nil_iff.2 fun c hc => by
      simp [isKept_eq_false_of_letter c (hletter c hc)]
  · exact List.filter_eq_nil_iff.2 fun c hc => by
      simp [isKept_eq_false_of_big c (of_decide_eq_true (hbig c hc))]

theorem convAux_nil (f : Nat) : convAux f [] = [] := by cases f <;> rfl

theorem convAux_congr (f₁ : Nat) :
    ∀ (f₂ : Nat) (s : List Char), s.length ≤ f₁ → s.length ≤ f₂ →
      convAux f₁ s = convAux f₂ s := by
  induction f₁ with
  | zero =>
    intro f₂ s h1 _
    have hs : s = [] := List.eq_nil_of_length_eq_zero (Nat.le_zero.1 h1)
    subst hs
    rw [convAux_nil, convAux_nil]
  | succ f ih =>
    intro f₂ s h1 h2
    cases s with
    | nil => rw [convAux_nil, convAux_nil]
    | cons c rest =>
      cases f₂ with
      | zero => simp at h2
      | succ f₂' =>
        simp only [convAux]
        congr 1
        have hd : (rest.drop ((convertStep c rest).2 - 1)).length ≤ rest.length := by
          rw [List.length_drop]
          omega
        have hr1 : rest.length ≤ f := by
          have := List.length_cons c rest ▸ h1
          omega
        have hr2 : rest.length ≤ f₂' := by
          have := List.length_cons c rest ▸ h2
          omega
        exact ih f₂' _ (le_trans hd hr1) (le_trans hd hr2)

theorem convertAdvanced_cons (c : Char) (rest : List Char) :
    convertAdvanced (c :: rest) =
      (convertStep c rest).1 ++
        convertAdvanced (rest.drop ((convertStep c rest).2 - 1)) := by
  show convAux (c :: rest).length (c :: rest) = _
  rw [List.length_cons, convAux]
  congr 1
  apply convAux_congr
  · rw [List.length_drop]
    omega
  · exact le_rfl

/-! ### The step function consumes at least one character and preserves the
kept (non-alphabetic ASCII) projection -/

theorem dropWhile_jsWhite_eq_self (l : List Char)
    (h : ∀ ch ∈ l, jsWhite ch = false) : l.dropWhile jsWhite = l := by
  cases l with
  | nil => rfl
  | cons a l => simp [List.dropWhile_cons, h a (List.mem_cons_self _ _)]

theorem trimList_eq_self (w : List Char) (h : ∀ ch ∈ w, jsWhite ch = false) :
    trimList w = w := by
  unfold trimList
  rw [dropWhile_jsWhite_eq_self w h,
    dropWhile_jsWhite_eq_self w.reverse (fun ch hc => h ch (List.mem_reverse.1 hc)),
    List.reverse_reverse]

/-- Claim C1: at every position of the composition loop, when some key of
length `n` (2, 3 or 4) is present in the cluster table or the general
mapping, and no longer key up to length 4 matches at that position, the step
consumes exactly those `n` characters and emits the table value for them —
so a longer table match always wins over any shorter match at the same
position — and when the cluster table has the key, its value is the one
emitted, so at equal length the cluster table takes priority over the
general mapping. -/
theorem claim_C1 (c : Char) (rest : List Char) (n : Nat) (v : List Char)
    (hn : n = 2 ∨ n = 3 ∨ n = 4)
    (hlen : n ≤ (c :: rest).length)
    (hhit : tblLookup ((c :: rest).take n) consonantClustersPairs = some v ∨
      mappingLookup ((c :: rest).take n) = some v)
    (hmax : ∀ m, n < m → m ≤ 4 → m ≤ (c :: rest).length →
      tblLookup ((c :: rest).take m) consonantClustersPairs = none ∧
        mappingLookup ((c :: rest).take m) = none) :
    ∃ w, convertStep c rest = (w, n) ∧
      (tblLookup ((c :: rest).take n) consonantClustersPairs = some w ∨
        mappingLookup ((c :: rest).take n) = some w) ∧
      (∀ cv, tblLookup ((c :: rest).take n) consonantClustersPairs = some cv →
        w = cv) := by
  have hmiss : ∀ m, n < m → m ≤ 4 →
      (if m ≤ (c :: rest).length then lookup2 ((c :: rest).take m) else none) = none := by
    intro m h1 h2
    by_cases hlm : m ≤ (c :: rest).length
    · rw [if_pos hlm]
      have hm := hmax m h1 h2 hlm
      simp only [lookup2]
      rw [hm.1, hm.2]
      rfl
    · rw [if_neg hlm]
  obtain ⟨w, hw2, hwor, hwpr⟩ :
      ∃ w, lookup2 ((c :: rest).take n) = some w ∧
        (tblLookup ((c :: rest).take n) consonantClustersPairs = some w ∨
          mappingLookup ((c :: rest).take n) = some w) ∧
        (∀ cv, tblLookup ((c :: rest).take n) consonantClustersPairs = some cv →
          w = cv) := by
    rcases hcl : tblLookup ((c :: rest).take n) consonantClustersPairs with _ | cv
    · rcases hhit with hh | hh
      · rw [hcl] at hh
        exact absurd hh (by simp)
      · refine ⟨v, ?_, Or.inr hh, fun cv hcv => by simp at hcv⟩
        simp only [lookup2]
        rw [hcl]
        simpa [oor] using hh
    · refine ⟨cv, ?_, Or.inl rfl, fun cv' hcv' => Option.some_inj.1 hcv'⟩
      simp only [lookup2]
      rw [hcl]
      rfl
  refine ⟨w, ?_, hwor, hwpr⟩
  rcases hn with rfl | rfl | rfl
  · -- n = 2
    have h4 := hmiss 4 (by omega) le_rfl
    have h3 := hmiss 3 (by omega) (by omega)
    rcases hcl : tblLookup ((c :: rest).take 2) consonantClustersPairs with _ | cv
    · have hm : mappingLookup ((c :: rest).take 2) = some w := by
        rcases hwor with hh | hh
        · rw [hcl] at hh
          simp at hh
        · exact hh
      have h2c : (if 2 ≤ (c :: rest).length then
          tblLookup ((c :: rest).take 2) consonantClustersPairs else none) = none := by
        rw [if_pos hlen, hcl]
      have h2m : (if 2 ≤ (c :: rest).length then
          mappingLookup ((c :: rest).take 2) else none) = some w := by
        rw [if_pos hlen]
        exact hm
      simp only [convertStep, h4, h3, h2c, h2m]
    · have hcv : w = cv := hwpr cv hcl
      subst hcv
      have h2c : (if 2 ≤ (c :: rest).length then
          tblLookup ((c :: rest).take 2) consonantClustersPairs else none) = some w := by
        rw [if_pos hlen]
        exact hcl
      simp only [convertStep, h4, h3, h2c]
  · -- n = 3
    have h4 := hmiss 4 (by omega) le_rfl
    have h3 : (if 3 ≤ (c :: rest).length then lookup2 ((c :: rest).take 3) else none) =
        some w := by
      rw [if_pos hlen]
      exact hw2
    simp only [convertStep, h4, h3]
  · -- n = 4
    have h4 : (if 4 ≤ (c :: rest).length then lookup2 ((c :: rest).take 4) else none) =
        some w := by
      rw [if_pos hlen]
      exact hw2
    simp only [convertStep, h4]

/-- Claim C1 witness: the cluster key `"ksh"` at the start of the word
`"ksh"` is consumed as one three-character unit with the cluster value. -/
theorem claim_C1_witness : convertStep 'k' ['s', 'h'] = ("क्ष".data, 3) := by
  obtain ⟨w, hw, -, hpr⟩ := claim_C1 'k' ['s', 'h'] 3 "क्ष".data
    (Or.inr (Or.inl rfl)) (by decide) (Or.inl (by decide))
    (fun m h1 _ h3 => absurd (Nat.lt_of_lt_of_le h1 h3) (lt_irrefl 3))
  rw [hw, hpr "क्ष".data (by decide)]

/-! ### Case sensitivity: the case-sensitive flag is never consulted -/

theorem isAsciiUpper_eq_false_of_white (c : Char) (h : jsWhite c = true) :
    isAsciiUpper c = false := by
  have hw := of_decide_eq_true (show whiteN c.toNat = true from h)
  simp only [isAsciiUpper, upperN, decide_eq_false_iff_not]
  omega

theorem all_white_of_trim_nil (w : List Char) (h : trimList w = []) :
    ∀ ch ∈ w, jsWhite ch = true := by
  unfold trimList at h
  rw [List.reverse_eq_nil_iff] at h
  have hdw : ∀ ch ∈ (w.dropWhile jsWhite).reverse, jsWhite ch = true :=
    List.dropWhile_eq_nil_iff.1 h
  have hdrop : ∀ ch ∈ w.dropWhile jsWhite, jsWhite ch = true := fun ch hc =>
    hdw ch (List.mem_reverse.2 hc)
  intro ch hch
  rw [← List.takeWhile_append_dropWhile jsWhite w, List.mem_append] at hch
  rcases hch with hch | hch
  · exact List.mem_takeWhile_imp hch
  · exact hdrop ch hch

theorem lowerList_eq_self (w : List Char) (h : ∀ ch ∈ w, isAsciiUpper ch = false) :
    lowerList w = w := by
  induction w with
  | nil => rfl
  | cons c l ih =>
    simp only [lowerList, List.map_cons]
    rw [lowerChar_eq_self c (h c (List.mem_cons_self _ _))]
    rw [show lowerList l = List.map lowerChar l from rfl] at ih
    rw [ih (fun ch hc => h ch (List.mem_cons_of_mem _ hc))]

theorem trimList_lowerList (w : List Char) :
    trimList (lowerList w) = lowerList (trimList w) := by
  have hp : (jsWhite ∘ lowerChar) = jsWhite := funext fun c => jsWhite_lowerChar c
  unfold trimList lowerList
  rw [List.dropWhile_map, hp, ← List.map_reverse, List.dropWhile_map, hp,
    ← List.map_reverse]

theorem normWord_lowerList (w : List Char) : normWord (lowerList w) = normWord w := by
  unfold normWord
  rw [trimList_lowerList]
  unfold lowerList
  rw [List.map_map]
  congr 1
  exact funext fun c => lowerChar_idem c

/-- Claim C3 counterexample: even with case-sensitive matching enabled,
`convertWord` lowercases its input — `"T"` converts through the lowercase
key `"t"` (त), not through the uppercase key `"T"` (ट) that case-preserving
matching would use, so enabling `caseSensitive` does not preserve the letter
case of the input for matching. -/
theorem claim_C3_cex :
    convertWord { defaultConfig with caseSensitive := true } ['T'] = ['त'] ∧
      convertAdvanced ['T'] = ['ट'] ∧ (['त'] : List Char) ≠ ['ट'] := by decide

/-- Claim C3 (amended): `convertWord` always trims and lowercases its input
before any table lookup, regardless of the configuration: the `caseSensitive`
flag has no effect on the result, and pre-lowercasing the input does not
change the result. -/
theorem claim_C3 (cfg : NepaliConverterConfig) (b : Bool) (w : List Char) :
    convertWord { cfg with caseSensitive := b } w = convertWord cfg w ∧
      convertWord cfg w = convertWord cfg (lowerList w) := by
  constructor
  · obtain ⟨a, cs, pp, e⟩ := cfg
    rfl
  · unfold convertWord
    by_cases h0 : w = []
    · simp [h0, lowerList]
    · have h0' : ¬ lowerList w = [] := by simpa [lowerList] using h0
      rw [if_neg h0', if_neg h0]
      have htr : trimList (lowerList w) = lowerList (trimList w) := trimList_lowerList w
      by_cases h1 : trimList w = []
      · have hw := all_white_of_trim_nil w h1
        have h1' : trimList (lowerList w) = [] := by
          rw [htr, h1]
          rfl
        rw [if_pos h1, if_pos h1',
          lowerList_eq_self w (fun ch hc => isAsciiUpper_eq_false_of_white ch (hw ch hc))]
      · have h1' : ¬ trimList (lowerList w) = [] := by
          rw [htr]
          intro he
          apply h1
          have := congrArg List.length he
          rw [show lowerList (trimList w) = List.map lowerChar (trimList w) from rfl,
            List.length_map] at this
          exact List.eq_nil_of_length_eq_zero this
        rw [if_neg h1, if_neg h1', normWord_lowerList]

/-! ### Whole-word exceptions -/

theorem normWord_ne_nil_aux (w k : List Char) (hw : normWord w = k) (hk : k ≠ []) :
    w ≠ [] ∧ trimList w ≠ [] := by
  have htne : trimList w ≠ [] := by
    intro he
    apply hk
    rw [← hw, normWord, he]
    rfl
  exact ⟨fun he => htne (by rw [he]; rfl), htne⟩

/-- Claim C4: with whole-word exceptions enabled, a word whose trimmed,
lowercased form exactly matches an exception key is mapped to the exception
table's value verbatim, bypassing the composition algorithm. -/
theorem claim_C4 (cfg : NepaliConverterConfig) (w : List Char) (k v : String)
    (hflag : cfg.enableCommonWords = true)
    (hm : (k, v) ∈ commonWordsPairs)
    (hw : normWord w = k.data) :
    convertWord cfg w = v.data := by
  have hlk : tblLookup k.data commonWordsPairs = some v.data :=
    tblLookup_of_mem _ commonWords_keys_nodup k v hm
  have hkne := (lookup_kv _ commonWords_ok _ _ hlk).1
  obtain ⟨hwne, htne⟩ := normWord_ne_nil_aux w k.data hw hkne
  unfold convertWord
  rw [if_neg hwne, if_neg htne]
  have hscrut : (if cfg.enableCommonWords then
      tblLookup (normWord w) commonWordsPairs else none) = some v.data := by
    simp [hflag, hw, hlk]
  simp only [hscrut]

/-- Claim C4 witness: `"namaste"` is mapped through the exception table. -/
theorem claim_C4_witness :
    convertWord defaultConfig "namaste".data = "नमस्ते".data :=
  claim_C4 defaultConfig "namaste".data "namaste" "नमस्ते" rfl (by decide) (by decide)

/-! ### The insertion trigger with auto-conversion disabled -/

/-- Claim C5 counterexample: with the trigger disabled, `handleSpaceKey`
returns the cursor position unchanged, not advanced by one. -/
theorem claim_C5_cex :
    (handleSpaceKey { defaultConfig with autoConvertOnSpace := false }
      ['a', 'b'] 1).2 ≠ 1 + 1 := by decide

/-- Claim C5 (amended): with the trigger-on-space flag disabled,
`handleSpaceKey` returns the text unchanged and the cursor position
unchanged (not advanced), regardless of the text's content. -/
theorem claim_C5 (cfg : NepaliConverterConfig) (t : List Char) (p : Nat)
    (h : cfg.autoConvertOnSpace = false) :
    handleSpaceKey cfg t p = (t, p) := by
  simp [handleSpaceKey, h]

/-- Claim C5 witness. -/
theorem claim_C5_witness :
    handleSpaceKey { defaultConfig with autoConvertOnSpace := false }
      "mero".data 4 = ("mero".data, 4) :=
  claim_C5 { defaultConfig with autoConvertOnSpace := false } "mero".data 4 rfl

/-! ### Characters outside the vowel/consonant alphabets -/

theorem keys_vc_split :
    vowelsPairs.all (fun p => p.1.data.all (fun c => vcKeyChars.contains c)) = true ∧
    baseConsonantsPairs.all (fun p => p.1.data.all (fun c => vcKeyChars.contains c)) = true ∧
    halfConsonantsPairs.all (fun p => p.1.data.all (fun c => vcKeyChars.contains c)) = true ∧
    matrasPairs.all (fun p => p.1.data.all (fun c => vcKeyChars.contains c)) = true ∧
    consonantClustersPairs.all (fun p => p.1.data.all (fun c => vcKeyChars.contains c)) = true ∧
    commonWordsPairs.all (fun p => p.1.data.all (fun c => vcKeyChars.contains c)) = true := by
  have h := table_keys_in_vc
  rw [allTablePairs] at h
  simp only [List.all_append, Bool.and_eq_true] at h
  exact ⟨h.1.1.1.1.1, h.1.1.1.1.2, h.1.1.1.2, h.1.1.2, h.1.2, h.2⟩

theorem outside_tblLookup_none (t : List (String × String))
    (ht : t.all (fun p => p.1.data.all (fun c => vcKeyChars.contains c)) = true)
    (c : Char) (k : List Char) (hc : vcKeyChars.contains c = false) :
    tblLookup (c :: k) t = none := by
  apply tblLookup_eq_none
  intro p hp he
  have hall := List.all_eq_true.1 ht p hp
  have hkc := List.all_eq_true.1 hall c (by rw [← he]; exact List.mem_cons_self _ _)
  exact absurd hkc (by rw [hc]; simp)

theorem convertStep_outside (c : Char) (rest : List Char)
    (hc : vcKeyChars.contains c = false) :
    convertStep c rest = ([c], 1) := by
  obtain ⟨hva, hvb, hvh, hvm, hvcl, hvcw⟩ := keys_vc_split
  have hvow := outside_tblLookup_none _ hva c [] hc
  have hbase := outside_tblLookup_none _ hvb c [] hc
  have hl2 : ∀ k, lookup2 (c :: k) = none := fun k => by
    simp only [lookup2, mappingLookup]
    rw [outside_tblLookup_none _ hvcl c k hc, outside_tblLookup_none _ hvcw c k hc,
      outside_tblLookup_none _ hvb c k hc, outside_tblLookup_none _ hva c k hc]
    rfl
  have h4 : (if 4 ≤ (c :: rest).length then lookup2 ((c :: rest).take 4) else none) =
      none := by
    rw [List.take_succ_cons, hl2, ite_self]
  have h3 : (if 3 ≤ (c :: rest).length then lookup2 ((c :: rest).take 3) else none) =
      none := by
    rw [List.take_succ_cons, hl2, ite_self]
  have h2c : (if 2 ≤ (c :: rest).length then
      tblLookup ((c :: rest).take 2) consonantClustersPairs else none) = none := by
    rw [List.take_succ_cons, outside_tblLookup_none _ hvcl c _ hc, ite_self]
  have h2m : (if 2 ≤ (c :: rest).length then mappingLookup ((c :: rest).take 2)
      else none) = none := by
    rw [List.take_succ_cons]
    have : mappingLookup (c :: rest.take 1) = none := by
      simp only [mappingLookup]
      rw [outside_tblLookup_none _ hvcl c _ hc, outside_tblLookup_none _ hvcw c _ hc,
        outside_tblLookup_none _ hvb c _ hc, outside_tblLookup_none _ hva c _ hc]
      rfl
    rw [this, ite_self]
  have hccp : (if 2 ≤ (c :: rest).length then ccPair c rest else none) = none := by
    have hcn : ccPair c rest = none := by
      cases rest with
      | nil => rfl
      | cons r1 rs => simp [ccPair, hbase]
    rw [hcn, ite_self]
  simp only [convertStep, h4, h3, h2c, h2m, hccp]
  simp only [singleStep, hvow, hbase]

theorem convertAdvanced_outside (s : List Char)
    (h : ∀ ch ∈ s, vcKeyChars.contains ch = false) :
    convertAdvanced s = s := by
  induction s with
  | nil => rfl
  | cons c rest ih =>
    rw [convertAdvanced_cons, convertStep_outside c rest (h c (List.mem_cons_self _ _))]
    simp [ih (fun ch hc => h ch (List.mem_cons_of_mem _ hc))]

/-- Claim C7 counterexample: `'Z'` lies outside the consonant and vowel
alphabets of the symbol tables, yet `convertWord` lowercases it, so
`convertWord "Z" = "z" ≠ "Z"` — the identity claim fails for words made of
such characters whenever the trim-and-lowercase normalisation touches them:
uppercase letters, leading or trailing whitespace, and (in the program,
beyond this model's ASCII case mapping) non-ASCII cased letters such as
`'É'`, which `toLowerCase` sends to `'é'`. -/
theorem claim_C7_cex :
    vcKeyChars.contains 'Z' = false ∧
      convertWord defaultConfig ['Z'] ≠ ['Z'] := by decide

/-- Claim C7 (amended): for every word composed only of ASCII characters
outside the consonant and vowel alphabets of the symbol tables that are
moreover neither whitespace nor uppercase letters (so they are untouched by
the trim and lowercase normalisation — e.g. digits and ASCII punctuation),
`convertWord` is the identity.  The restriction to ASCII matters beyond
excluding `'A'`–`'Z'`: `toLowerCase` in the program also lowercases
non-ASCII cased letters (`'É'` becomes `'é'`, which the composition loop
then copies through as an unknown character), so the identity fails at such
characters too; on the ASCII characters admitted here the modelled
lowercasing coincides exactly with the program's. -/
theorem claim_C7 (cfg : NepaliConverterConfig) (w : List Char)
    (h : ∀ ch ∈ w, vcKeyChars.contains ch = false ∧ jsWhite ch = false ∧
      isAsciiUpper ch = false ∧ ch.toNat ≤ 127) :
    convertWord cfg w = w := by
  unfold convertWord
  by_cases h0 : w = []
  · rw [if_pos h0]
  · rw [if_neg h0]
    have htrim : trimList w = w := trimList_eq_self w (fun ch hc => (h ch hc).2.1)
    have h1 : ¬ trimList w = [] := fun he => h0 (htrim ▸ he)
    rw [if_neg h1]
    have hlow : lowerList w = w := lowerList_eq_self w (fun ch hc => (h ch hc).2.2.1)
    have hnw : normWord w = w := by rw [normWord, htrim, hlow]
    have hcw : tblLookup (normWord w) commonWordsPairs = none := by
      rw [hnw]
      cases w with
      | nil => exact absurd rfl h0
      | cons c rest =>
        exact outside_tblLookup_none _ keys_vc_split.2.2.2.2.2 c rest
          (h c (List.mem_cons_self _ _)).1
    have hscrut : (if cfg.enableCommonWords then
        tblLookup (normWord w) commonWordsPairs else none) = none := by
      rw [hcw, ite_self]
    simp only [hscrut]
    rw [hnw, convertAdvanced_outside w (fun ch hc => (h ch hc).1)]

/-- Claim C7 witness: a digit string converts to itself. -/
theorem claim_C7_witness : convertWord defaultConfig "2081".data = "2081".data :=
  claim_C7 defaultConfig "2081".data (by decide)

/-! ### Empty and whitespace-only input -/

/-- Claim C8: an empty or whitespace-only word is returned unchanged by
`convertWord` (the whitespace is not trimmed away, and no conversion is
attempted). -/
theorem claim_C8 (cfg : NepaliConverterConfig) (w : List Char)
    (h : ∀ ch ∈ w, jsWhite ch = true) :
    convertWord cfg w = w := by
  unfold convertWord
  by_cases h0 : w = []
  · rw [if_pos h0]
  · rw [if_neg h0]
    have htr : trimList w = [] := by
      unfold trimList
      rw [List.dropWhile_eq_nil_iff.2 h]
      rfl
    rw [if_pos htr]

/-- Claim C8 witness: a space-and-tab word is returned unchanged. -/
theorem claim_C8_witness :
    convertWord defaultConfig [' ', '\t', ' '] = [' ', '\t', ' '] :=
  claim_C8 defaultConfig [' ', '\t', ' '] (by decide)

/-! ### Short exception keys are reachable through the general mapping -/

/-- Claim C9: a word normalising to a whole-word exception key of length at
most four is mapped to the exception value even with the whole-word
exception flag disabled, because the common words are spread into the
general mapping consulted by the length-4/3/2 ladder of the composition
algorithm. -/
theorem claim_C9 (cfg : NepaliConverterConfig) (w : List Char) (k v : String)
    (hflag : cfg.enableCommonWords = false)
    (hm : (k, v) ∈ commonWordsPairs)
    (hlen : k.data.length ≤ 4)
    (hw : normWord w = k.data) :
    convertWord cfg w = v.data := by
  have hconv : convertAdvanced k.data = v.data := by
    have hf : (k, v) ∈ commonWordsPairs.filter (fun p => p.1.data.length ≤ 4) :=
      List.mem_filter.2 ⟨hm, decide_eq_true hlen⟩
    exact of_decide_eq_true (List.all_eq_true.1 commonWords_short_composed _ hf)
  have hlk : tblLookup k.data commonWordsPairs = some v.data :=
    tblLookup_of_mem _ commonWords_keys_nodup k v hm
  have hkne := (lookup_kv _ commonWords_ok _ _ hlk).1
  obtain ⟨hwne, htne⟩ := normWord_ne_nil_aux w k.data hw hkne
  unfold convertWord
  rw [if_neg hwne, if_neg htne]
  have hscrut : (if cfg.enableCommonWords then
      tblLookup (normWord w) commonWordsPairs else none) = none := by
    simp [hflag]
  simp only [hscrut]
  rw [hw]
  exact hconv

/-- Claim C9 witness: `"cha"` still maps to the exception value with the
whole-word exception flag disabled. -/
theorem claim_C9_witness :
    convertWord { defaultConfig with enableCommonWords := false } "cha".data =
      "छ".data :=
  claim_C9 { defaultConfig with enableCommonWords := false } "cha".data "cha" "छ"
    rfl (by decide) (by decide) (by decide)

/-! ### The insertion trigger with auto-conversion enabled -/

/-- Claim C10: the outputs of `convertWord`, `convertText` and
`handleSpaceKey` are identical whether the preserve-punctuation flag is true
or false — no operation of the engine consults that configuration field. -/
theorem claim_C10 (cfg : NepaliConverterConfig) (b : Bool) (w t : List Char)
    (p : Nat) :
    convertWord { cfg with preservePunctuation := b } w = convertWord cfg w ∧
      convertText { cfg with preservePunctuation := b } t = convertText cfg t ∧
      handleSpaceKey { cfg with preservePunctuation := b } t p =
        handleSpaceKey cfg t p := by
  obtain ⟨a, cs, pp, e⟩ := cfg
  exact ⟨rfl, rfl, rfl⟩
